import Mathlib

/-!
Shallow embedding of the fire-spread cellular automaton in `src/main.py`.

The simulation core consists of:
  * `Cell`: the per-cell combustion state machine (fuel, heat, ignited/ash
    flags, the same-tick ignition flag and the wall flag), with operations
    `ignite`, `extinguish`, `burn`, `refresh`, `update_state`;
  * the grid of cells managed by `CellManager`: neighbour computation
    (`find_neighbours`), burning-neighbour counting
    (`count_neighbours_burning`) and the in-place row-major tick
    (`update_cells`);
  * the two pointer-driven operations `ignite_cell` and `toggle_wall`.

The grid is modelled as a total function from integer coordinates to cells;
only in-bounds positions (those in `all_cell_coords`) are ever read or
written by the operations, mirroring the Python nested list.  Neighbour
lists store coordinates rather than object pointers (the cells in the
source hold back-references into the same grid).  Turtle-graphics calls
(`shape`, `goto`, screen updates) and the float pixel-to-grid coordinate
transform in `ignite_cell` / `toggle_wall` are GUI glue outside the
simulation core; the operations are modelled at grid coordinates, after
the source's bounds check.
-/

/-- Number of ticks a cell burns before being extinguished (src line 13). -/
def FUEL_REMAINING : Int := 40

/-- Cumulative heat required to ignite (src line 15). -/
def HEAT_TO_IGNITE : Int := 5

/-- Number of ticks an extinguished cell sits before being refreshed (src line 17). -/
def ASH_TIME : Int := 80

/-- Size of the grid in cells (src line 8). -/
def GRID_SIZE : Nat := 32

/-- One grid square: the simulation fields of the Python `Cell` class
(src lines 39-46), without the turtle-graphics state. -/
structure Cell where
  fuel_remaining : Int
  heat : Int
  ignited : Bool
  ash : Bool
  time_as_ash : Int
  ignited_this_tick : Bool
  wall : Bool
deriving DecidableEq, Repr

/-- The state every cell starts in (`Cell.__init__`, src lines 39-46). -/
def initial_cell : Cell :=
  { fuel_remaining := FUEL_REMAINING
    heat := 0
    ignited := false
    ash := false
    time_as_ash := 0
    ignited_this_tick := false
    wall := false }

/-- `Cell.ignite` (src lines 48-52): set `ignited` and `ignited_this_tick`. -/
def Cell.ignite (c : Cell) : Cell :=
  { c with ignited := true, ignited_this_tick := true }

/-- `Cell.extinguish` (src lines 59-64): reset heat, clear `ignited`, set `ash`. -/
def Cell.extinguish (c : Cell) : Cell :=
  { c with heat := 0, ignited := false, ash := true }

/-- `Cell.burn` (src lines 66-72): clear the same-tick flag if set, consume one
unit of fuel, and extinguish when the fuel counter reaches zero (Python's
`if not self.fuel_remaining`). -/
def Cell.burn (c : Cell) : Cell :=
  let c1 := if c.ignited_this_tick then { c with ignited_this_tick := false } else c
  let c2 := { c1 with fuel_remaining := c1.fuel_remaining - 1 }
  if c2.fuel_remaining = 0 then c2.extinguish else c2

/-- `Cell.refresh` (src lines 74-79): reset the ash timer, restore fuel, clear `ash`. -/
def Cell.refresh (c : Cell) : Cell :=
  { c with time_as_ash := 0, fuel_remaining := FUEL_REMAINING, ash := false }

/-- `Cell.update_state` (src lines 81-92): the per-tick transition of one cell,
given the burning-neighbour count. -/
def Cell.update_state (c : Cell) (neighbours_burning : Nat) : Cell :=
  if c.ignited then c.burn
  else if c.ash then
    let c1 := { c with time_as_ash := c.time_as_ash + 1 }
    if ASH_TIME < c1.time_as_ash then c1.refresh else c1
  else if 0 < neighbours_burning then
    let c1 := { c with heat := c.heat + (neighbours_burning : Int) }
    if HEAT_TO_IGNITE ≤ c1.heat then c1.ignite else c1
  else c

/-- A grid position: (row, column), as produced by the source's index
arithmetic. -/
abbrev Pos := Int × Int

/-- The grid of cells, total over integer coordinates; the operations only
ever touch positions inside `all_cell_coords`. -/
abbrev Grid := Pos → Cell

/-- The all-dormant full-fuel grid built by `CellManager.create_cells`
(src lines 114-121): every slot holds a freshly constructed cell. -/
def initial_grid : Grid := fun _ => initial_cell

/-- `CellManager.all_cell_coords` (src lines 123-127): row-major enumeration
of the grid positions. -/
def all_cell_coords (n : Nat) : List Pos :=
  (List.range n).flatMap fun (row : Nat) =>
    (List.range n).map fun (col : Nat) => ((row : Int), (col : Int))

/-- `CellManager.find_neighbours` (src lines 134-148): in-bounds orthogonal
neighbours of a position, with the diagonal offsets skipped (the source's
`if dr and dc: continue`), in loop order. -/
def find_neighbours (n : Nat) (row col : Int) : List Pos :=
  ([-1, 0, 1] : List Int).flatMap fun dr =>
    ([-1, 0, 1] : List Int).filterMap fun dc =>
      if dr = 0 ∧ dc = 0 then none
      else if dr ≠ 0 ∧ dc ≠ 0 then none
      else
        let nr := row + dr
        let nc := col + dc
        if 0 ≤ nr ∧ nr < (n : Int) ∧ 0 ≤ nc ∧ nc < (n : Int) then some (nr, nc) else none

/-- `CellManager.count_neighbours_burning` (src lines 150-158): the number of
neighbours that are burning, excluding those ignited this tick. -/
def count_neighbours_burning (n : Nat) (g : Grid) (row col : Int) : Nat :=
  ((find_neighbours n row col).filter fun q => (g q).ignited && !(g q).ignited_this_tick).length

/-- One step of the `update_cells` loop body (src lines 162-167): skip walls,
otherwise count burning neighbours in the current (partially updated) grid
and apply `update_state` to the cell, in place. -/
def update_pos (n : Nat) (g : Grid) (p : Pos) : Grid :=
  let cell := g p
  if cell.wall then g
  else Function.update g p (cell.update_state (count_neighbours_burning n g p.1 p.2))

/-- `CellManager.update_cells` (src lines 160-167): one full tick, iterating
over the cells in row-major order and mutating the grid in place. -/
def update_cells (n : Nat) (g : Grid) : Grid :=
  (all_cell_coords n).foldl (update_pos n) g

/-- `ignite_cell` (src lines 170-178) after the pixel-to-grid transform:
if the coordinates are in bounds and the cell is neither ignited nor ash,
ignite it; otherwise do nothing.  Note the source does not test `wall`. -/
def ignite_cell (n : Nat) (g : Grid) (row col : Int) : Grid :=
  if 0 ≤ col ∧ col < (n : Int) ∧ 0 ≤ row ∧ row < (n : Int) then
    let cell := g (row, col)
    if cell.ignited = false ∧ cell.ash = false then
      Function.update g (row, col) cell.ignite
    else g
  else g

/-- `toggle_wall` (src lines 181-193) after the pixel-to-grid transform:
if the coordinates are in bounds, set the wall flag when the cell is neither
a wall nor ignited, clear it when the cell is a wall, and otherwise do
nothing.  Note the source does not test `ash` before setting the flag. -/
def toggle_wall (n : Nat) (g : Grid) (row col : Int) : Grid :=
  if 0 ≤ col ∧ col < (n : Int) ∧ 0 ≤ row ∧ row < (n : Int) then
    let cell := g (row, col)
    if cell.wall = false ∧ cell.ignited = false then
      Function.update g (row, col) { cell with wall := true }
    else if cell.wall = true then
      Function.update g (row, col) { cell with wall := false }
    else g
  else g

/-- Grid states reachable from construction through the public operations:
ticks (`update_cells`, driven by `game_loop`), `ignite_cell` and
`toggle_wall` at arbitrary coordinates. -/
inductive Reachable (n : Nat) : Grid → Prop
  | init : Reachable n initial_grid
  | tick {g} : Reachable n g → Reachable n (update_cells n g)
  | ignite {g} (row col : Int) : Reachable n g → Reachable n (ignite_cell n g row col)
  | wall {g} (row col : Int) : Reachable n g → Reachable n (toggle_wall n g row col)

/-- The partially updated grid that `update_cells` has built just before it
processes position `p`: the fold over the row-major positions strictly
before `p`. -/
def fold_before (n : Nat) (g : Grid) (p : Pos) : Grid :=
  ((all_cell_coords n).takeWhile fun q => decide (q ≠ p)).foldl (update_pos n) g

/-- Modelled from the spec (section 4.2 and the refinement note in section 5):
a fully double-buffered tick, in which every non-wall cell's
`neighbours_burning` is computed from the complete pre-tick snapshot before
any cell is mutated, and wall cells are skipped. -/
def double_buffer_tick (n : Nat) (g : Grid) : Grid := fun p =>
  if p ∈ all_cell_coords n then
    if (g p).wall then g p
    else (g p).update_state (count_neighbours_burning n g p.1 p.2)
  else g p

/-- Manhattan distance between two grid positions. -/
def mdist (a b : Pos) : Nat := (a.1 - b.1).natAbs + (a.2 - b.2).natAbs

/-- The per-cell state invariant maintained by every reachable grid:
`ignited` and `ash` are mutually exclusive, an ignited cell has at least one
unit of fuel, a dormant (non-ignited, non-ash) cell has full fuel, fuel is
never negative, the ash timer is zero outside the ash phase, and an ash
cell's heat has been reset. -/
def CellInv (c : Cell) : Prop :=
  (c.ignited = true → c.ash = false) ∧
  (c.ignited = true → 1 ≤ c.fuel_remaining) ∧
  (c.ignited = false → c.ash = false → c.fuel_remaining = FUEL_REMAINING) ∧
  (0 ≤ c.fuel_remaining) ∧
  (c.ash = false → c.time_as_ash = 0) ∧
  (c.ash = true → c.heat = 0)

/-- A cell is active when it has accumulated heat, is burning, or is ash;
inactive cells are exactly the untouched dormant ones. -/
def CellActive (c : Cell) : Prop := c.heat ≠ 0 ∨ c.ignited = true ∨ c.ash = true

/-- Concrete scenario: on a 1-cell grid, make the cell a wall and then ignite
it with the pointer operation (which only tests `ignited` and `ash`). -/
def wall_ignited_grid : Grid := ignite_cell 1 (toggle_wall 1 initial_grid 0 0) 0 0

/-- Concrete scenario: on a 1-cell grid, ignite the cell and burn through its
full fuel; after `FUEL_REMAINING` ticks the cell is ash. -/
def ash_grid_1x1 : Grid := (update_cells 1)^[40] (ignite_cell 1 initial_grid 0 0)

/-- Concrete scenario: on a 3-by-3 grid, ignite the cell at row 2, column 1
and run five ticks; the cells at (1,1), (2,0) and (2,2) heat up from the
fire and (2,2) ignites during tick 5. -/
def spread_grid_3x3 : Grid := (update_cells 3)^[5] (ignite_cell 3 initial_grid 2 1)

/-- Concrete scenario grid for comparing the in-place tick with the
double-buffered tick: on a 2-by-2 grid, cell (1,1) is ignited and burns for
four ticks, heating cell (0,1) to 3, and then cell (0,0) is ignited by the
pointer operation, leaving its same-tick flag set. -/
def mixed_grid_2x2 : Grid :=
  ignite_cell 2 ((update_cells 2)^[4] (ignite_cell 2 initial_grid 1 1)) 0 0

/-! ### Basic facts about the row-major fold -/

theorem update_pos_apply_ne (n : Nat) (g : Grid) (p q : Pos) (h : q ≠ p) :
    update_pos n g p q = g q := by
  unfold update_pos
  by_cases hw : (g p).wall
  · simp [hw]
  · simp [hw, Function.update_noteq h]

theorem foldl_update_pos_not_mem (n : Nat) :
    ∀ (l : List Pos) (g : Grid) (q : Pos), q ∉ l →
      (l.foldl (update_pos n) g) q = g q := by
  intro l
  induction l with
  | nil => intro g q _; rfl
  | cons a t ih =>
      intro g q hq
      have hqa : q ≠ a := fun h => hq (h ▸ List.mem_cons_self a t)
      have hqt : q ∉ t := fun h => hq (List.mem_cons_of_mem a h)
      simp only [List.foldl_cons]
      rw [ih (update_pos n g a) q hqt, update_pos_apply_ne n g a q hqa]

theorem mem_all_cell_coords (n : Nat) (p : Pos) :
    p ∈ all_cell_coords n ↔ 0 ≤ p.1 ∧ p.1 < (n : Int) ∧ 0 ≤ p.2 ∧ p.2 < (n : Int) := by
  obtain ⟨r, c⟩ := p
  simp only [all_cell_coords, List.mem_flatMap, List.mem_map, List.mem_range, Prod.mk.injEq]
  constructor
  · rintro ⟨row, hrow, col, hcol, h1, h2⟩
    omega
  · rintro ⟨h1, h2, h3, h4⟩
    exact ⟨r.toNat, by omega, c.toNat, by omega, by omega, by omega⟩

theorem nodup_all_cell_coords (n : Nat) : (all_cell_coords n).Nodup := by
  unfold all_cell_coords
  rw [List.nodup_flatMap]
  constructor
  · intro r _
    refine List.Nodup.map ?_ (List.nodup_range n)
    intro a b h
    simpa using congrArg Prod.snd h
  · refine (List.nodup_range n).pairwise_of_forall_ne ?_
    intro r1 _ r2 _ hne
    simp only [Function.onFun, List.disjoint_left, List.mem_map, List.mem_range]
    rintro p ⟨c1, _, h1⟩ ⟨c2, _, h2⟩
    apply hne
    have := congrArg Prod.fst (h1.trans h2.symm)
    simpa using this

theorem takeWhile_ne_decomp (p : Pos) :
    ∀ (l : List Pos), p ∈ l →
      l = (l.takeWhile fun q => decide (q ≠ p)) ++ p :: (l.dropWhile fun q => decide (q ≠ p)).tail := by
  intro l
  induction l with
  | nil => intro h; exact absurd h (List.not_mem_nil p)
  | cons a t ih =>
      intro hp
      by_cases ha : a = p
      · subst ha
        simp [List.takeWhile_cons, List.dropWhile_cons]
      · have hpt : p ∈ t := by
          rcases List.mem_cons.mp hp with h | h
          · exact absurd h.symm ha
          · exact h
        have hd : decide (a ≠ p) = true := by simp [ha]
        simp only [List.takeWhile_cons, List.dropWhile_cons, hd, if_pos]
        simpa using congrArg (List.cons a) (ih hpt)

theorem not_mem_takeWhile_ne (p : Pos) (l : List Pos) :
    p ∉ l.takeWhile fun q => decide (q ≠ p) := by
  intro h
  have := List.mem_takeWhile_imp h
  simp at this

theorem fold_before_apply_self (n : Nat) (g : Grid) (p : Pos) :
    (fold_before n g p) p = g p :=
  foldl_update_pos_not_mem n _ g p (not_mem_takeWhile_ne p _)

theorem update_cells_apply_mem (n : Nat) (g : Grid) (p : Pos) (hp : p ∈ all_cell_coords n) :
    (update_cells n g) p = update_pos n (fold_before n g p) p p := by
  have hdec := takeWhile_ne_decomp p (all_cell_coords n) hp
  have hnd : (all_cell_coords n).Nodup := nodup_all_cell_coords n
  rw [hdec] at hnd
  have hpb : p ∉ ((all_cell_coords n).dropWhile fun q => decide (q ≠ p)).tail :=
    (List.nodup_cons.mp (List.Nodup.of_append_right hnd)).1
  conv_lhs => rw [update_cells, hdec]
  rw [List.foldl_append, List.foldl_cons]
  exact foldl_update_pos_not_mem n _ _ p hpb

theorem update_cells_apply_eq (n : Nat) (g : Grid) (p : Pos) (hp : p ∈ all_cell_coords n) :
    (update_cells n g) p =
      if (g p).wall then g p
      else (g p).update_state (count_neighbours_burning n (fold_before n g p) p.1 p.2) := by
  rw [update_cells_apply_mem n g p hp]
  unfold update_pos
  rw [fold_before_apply_self]
  by_cases hw : (g p).wall
  · simp only [hw, if_true]
    exact fold_before_apply_self n g p
  · simp only [hw, if_false, Bool.false_eq_true]
    rw [Function.update_same]

theorem update_cells_apply_not_mem (n : Nat) (g : Grid) (p : Pos) (hp : p ∉ all_cell_coords n) :
    (update_cells n g) p = g p :=
  foldl_update_pos_not_mem n _ g p hp

theorem update_pos_self_wall (n : Nat) (g : Grid) (p : Pos) (h : (g p).wall = true) :
    update_pos n g p = g := by
  simp [update_pos, h]

theorem foldl_update_pos_wall_fixed (n : Nat) :
    ∀ (l : List Pos) (g : Grid) (p : Pos), (g p).wall = true →
      (l.foldl (update_pos n) g) p = g p := by
  intro l
  induction l with
  | nil => intro g p _; rfl
  | cons a t ih =>
      intro g p hw
      simp only [List.foldl_cons]
      by_cases ha : p = a
      · subst ha
        rw [update_pos_self_wall n g p hw]
        exact ih g p hw
      · rw [ih _ p (by rw [update_pos_apply_ne n g a p ha]; exact hw),
          update_pos_apply_ne n g a p ha]

theorem update_cells_wall_fixed (n : Nat) (g : Grid) (p : Pos) (h : (g p).wall = true) :
    (update_cells n g) p = g p :=
  foldl_update_pos_wall_fixed n _ g p h

theorem foldl_update_pos_pointwise (n : Nat) (P : Cell → Prop)
    (hP : ∀ (c : Cell) (nb : Nat), P c → P (c.update_state nb)) :
    ∀ (l : List Pos) (g : Grid), (∀ p, P (g p)) → ∀ p, P ((l.foldl (update_pos n) g) p) := by
  intro l
  induction l with
  | nil => intro g hg p; exact hg p
  | cons a t ih =>
      intro g hg p
      refine ih (update_pos n g a) ?_ p
      intro q
      unfold update_pos
      by_cases hw : (g a).wall
      · simp only [hw, if_true]
        exact hg q
      · simp only [hw, Bool.false_eq_true, if_false]
        by_cases hq : q = a
        · subst hq
          rw [Function.update_same]
          exact hP _ _ (hg q)
        · rw [Function.update_noteq hq]
          exact hg q

/-! ### Characterisations of the cell transitions -/

theorem burn_eq (c : Cell) :
    c.burn = if c.fuel_remaining - 1 = 0
      then { c with ignited_this_tick := false, fuel_remaining := 0,
                    heat := 0, ignited := false, ash := true }
      else { c with ignited_this_tick := false,
                    fuel_remaining := c.fuel_remaining - 1 } := by
  obtain ⟨f, ht, i, a, t, itt, w⟩ := c
  by_cases hitt : itt <;> by_cases hf : f - 1 = 0 <;>
    simp [Cell.burn, Cell.extinguish, hitt, hf]

theorem update_state_of_ignited (c : Cell) (nb : Nat) (h : c.ignited = true) :
    c.update_state nb = c.burn := by
  simp [Cell.update_state, h]

theorem update_state_of_ash (c : Cell) (nb : Nat) (hi : c.ignited = false) (ha : c.ash = true) :
    c.update_state nb = if ASH_TIME < c.time_as_ash + 1
      then { c with time_as_ash := 0, fuel_remaining := FUEL_REMAINING, ash := false }
      else { c with time_as_ash := c.time_as_ash + 1 } := by
  simp only [Cell.update_state, hi, ha, Bool.false_eq_true, if_false, if_true]
  by_cases h : ASH_TIME < c.time_as_ash + 1 <;> simp [h, Cell.refresh]

theorem update_state_of_dormant (c : Cell) (nb : Nat) (hi : c.ignited = false)
    (ha : c.ash = false) (hnb : 0 < nb) :
    c.update_state nb = if HEAT_TO_IGNITE ≤ c.heat + (nb : Int)
      then { c with heat := c.heat + (nb : Int), ignited := true, ignited_this_tick := true }
      else { c with heat := c.heat + (nb : Int) } := by
  simp only [Cell.update_state, hi, ha, Bool.false_eq_true, if_false, hnb, if_true]
  by_cases h : HEAT_TO_IGNITE ≤ c.heat + (nb : Int) <;> simp [h, Cell.ignite]

theorem update_state_of_isolated (c : Cell) (hi : c.ignited = false) (ha : c.ash = false) :
    c.update_state 0 = c := by
  simp [Cell.update_state, hi, ha]

/-! ### The reachable-state invariant -/

theorem cellInv_initial : CellInv initial_cell := by
  unfold CellInv initial_cell
  decide

theorem cellInv_update_state (c : Cell) (nb : Nat) (h : CellInv c) :
    CellInv (c.update_state nb) := by
  obtain ⟨f, ht, i, a, t, itt, w⟩ := c
  simp only [CellInv] at h ⊢
  cases i <;> cases a <;> cases itt <;>
    simp_all [Cell.update_state, Cell.burn, Cell.extinguish, Cell.refresh, Cell.ignite,
      FUEL_REMAINING, HEAT_TO_IGNITE, ASH_TIME] <;>
    split_ifs <;> simp_all <;> omega

theorem cellInv_ignite (c : Cell) (h : CellInv c) (hi : c.ignited = false) (ha : c.ash = false) :
    CellInv c.ignite := by
  obtain ⟨f, ht, i, a, t, itt, w⟩ := c
  simp only [CellInv] at h ⊢
  simp_all [Cell.ignite, FUEL_REMAINING]

theorem cellInv_set_wall (c : Cell) (b : Bool) (h : CellInv c) : CellInv { c with wall := b } := by
  obtain ⟨h1, h2, h3, h4, h5, h6⟩ := h
  exact ⟨h1, h2, h3, h4, h5, h6⟩

theorem cellInv_reachable {n : Nat} {g : Grid} (h : Reachable n g) : ∀ p, CellInv (g p) := by
  induction h with
  | init => intro p; exact cellInv_initial
  | tick _ ih => exact foldl_update_pos_pointwise n CellInv cellInv_update_state _ _ ih
  | @ignite g' row col _ ih =>
      intro p
      simp only [ignite_cell]
      split_ifs with hb hg
      · by_cases hp : p = (row, col)
        · subst hp
          rw [Function.update_same]
          exact cellInv_ignite _ (ih _) hg.1 hg.2
        · rw [Function.update_noteq hp]
          exact ih p
      · exact ih p
      · exact ih p
  | @wall g' row col _ ih =>
      intro p
      simp only [toggle_wall]
      split_ifs with hb hg hw
      · by_cases hp : p = (row, col)
        · subst hp
          rw [Function.update_same]
          exact cellInv_set_wall _ _ (ih _)
        · rw [Function.update_noteq hp]
          exact ih p
      · by_cases hp : p = (row, col)
        · subst hp
          rw [Function.update_same]
          exact cellInv_set_wall _ _ (ih _)
        · rw [Function.update_noteq hp]
          exact ih p
      · exact ih p
      · exact ih p

theorem reachable_iterate {n : Nat} {g : Grid} (h : Reachable n g) (k : Nat) :
    Reachable n ((update_cells n)^[k] g) := by
  induction k with
  | zero => exact h
  | succ k ih =>
      rw [Function.iterate_succ_apply']
      exact ih.tick

/-- C1: after any sequence of the public operations, no cell is ever
simultaneously ignited and ash.  (The stronger four-way exclusivity of the
claim fails: the wall flag can coexist with `ignited` and with `ash`, see
the counterexample.) -/
theorem c1_ignited_ash_exclusive (n : Nat) (g : Grid) (h : Reachable n g) (p : Pos) :
    ¬((g p).ignited = true ∧ (g p).ash = true) := by
  rintro ⟨hi, ha⟩
  have := (cellInv_reachable h p).1 hi
  rw [this] at ha
  exact Bool.false_ne_true ha

theorem c1_witness :
    ¬((initial_grid ((0 : Int), (0 : Int))).ignited = true ∧
      (initial_grid ((0 : Int), (0 : Int))).ash = true) :=
  c1_ignited_ash_exclusive 1 initial_grid Reachable.init ((0 : Int), (0 : Int))

/-- C1 is refuted as stated: the reachable grid in which the single cell was
first turned into a wall and then ignited by the pointer operation has a
cell with `wall` and `ignited` simultaneously true. -/
theorem c1_cex_wall_and_ignited :
    Reachable 1 wall_ignited_grid ∧
    (wall_ignited_grid ((0 : Int), (0 : Int))).wall = true ∧
    (wall_ignited_grid ((0 : Int), (0 : Int))).ignited = true :=
  ⟨Reachable.ignite 0 0 (Reachable.wall 0 0 Reachable.init), by decide, by decide⟩

/-- C7: for in-bounds coordinates, `ignite_cell` leaves the whole grid
unchanged when the target cell is already ignited or ash, and ignites the
target exactly when it is neither ignited nor ash — regardless of the wall
flag, which the source does not test. -/
theorem c7_ignite_cell_guard (n : Nat) (g : Grid) (row col : Int)
    (hb : 0 ≤ col ∧ col < (n : Int) ∧ 0 ≤ row ∧ row < (n : Int)) :
    ((g (row, col)).ignited = true ∨ (g (row, col)).ash = true →
      ignite_cell n g row col = g) ∧
    ((g (row, col)).ignited = false → (g (row, col)).ash = false →
      ignite_cell n g row col = Function.update g (row, col) ((g (row, col)).ignite)) := by
  constructor
  · intro hcase
    simp only [ignite_cell]
    rw [if_pos hb, if_neg]
    rintro ⟨h1, h2⟩
    rcases hcase with h | h
    · rw [h1] at h; exact Bool.false_ne_true h
    · rw [h2] at h; exact Bool.false_ne_true h
  · intro h1 h2
    simp only [ignite_cell]
    rw [if_pos hb, if_pos ⟨h1, h2⟩]

theorem c7_witness :
    ignite_cell 1 initial_grid 0 0 =
      Function.update initial_grid ((0 : Int), (0 : Int))
        ((initial_grid ((0 : Int), (0 : Int))).ignite) :=
  (c7_ignite_cell_guard 1 initial_grid 0 0 (by decide)).2 (by decide) (by decide)

/-- C7 is refuted as stated: a reachable wall cell (neither ignited nor ash)
is not left unchanged by `ignite_cell` — it is ignited. -/
theorem c7_cex_ignites_wall_cell :
    Reachable 1 (toggle_wall 1 initial_grid 0 0) ∧
    ((toggle_wall 1 initial_grid 0 0) ((0 : Int), (0 : Int))).wall = true ∧
    ((toggle_wall 1 initial_grid 0 0) ((0 : Int), (0 : Int))).ignited = false ∧
    ((ignite_cell 1 (toggle_wall 1 initial_grid 0 0) 0 0) ((0 : Int), (0 : Int))).ignited = true :=
  ⟨Reachable.wall 0 0 Reachable.init, by decide, by decide, by decide⟩

/-- C8: for in-bounds coordinates, `toggle_wall` never sets the wall flag on
a currently ignited cell: afterwards the cell's wall flag is false (an
existing wall flag on an ignited cell is cleared) and its combustion state
is untouched.  (The claim's ash half fails: an ash cell does become a wall,
see the counterexample.) -/
theorem c8_toggle_wall_ignited_guard (n : Nat) (g : Grid) (row col : Int)
    (hb : 0 ≤ col ∧ col < (n : Int) ∧ 0 ≤ row ∧ row < (n : Int))
    (hi : (g (row, col)).ignited = true) :
    ((toggle_wall n g row col) (row, col)).wall = false ∧
    ((toggle_wall n g row col) (row, col)).ignited = (g (row, col)).ignited ∧
    ((toggle_wall n g row col) (row, col)).ash = (g (row, col)).ash ∧
    ((toggle_wall n g row col) (row, col)).fuel_remaining = (g (row, col)).fuel_remaining ∧
    ((toggle_wall n g row col) (row, col)).heat = (g (row, col)).heat := by
  simp only [toggle_wall]
  rw [if_pos hb]
  split_ifs with h1 h2
  · rw [hi] at h1
    exact absurd h1.2 (by simp)
  · rw [Function.update_same]
    simp
  · have hw : (g (row, col)).wall = false := by
      cases hwv : (g (row, col)).wall
      · rfl
      · exact absurd hwv h2
    simp [hw]

theorem c8_witness :
    ((toggle_wall 1 wall_ignited_grid 0 0) ((0 : Int), (0 : Int))).wall = false :=
  (c8_toggle_wall_ignited_guard 1 wall_ignited_grid 0 0 (by decide) (by decide)).1

set_option maxRecDepth 40000

/-- C8 is refuted as stated: the reachable 1-cell grid whose cell has burnt
to ash does become a wall under `toggle_wall` (the source only tests `wall`
and `ignited`, not `ash`). -/
theorem c8_cex_ash_becomes_wall :
    Reachable 1 ash_grid_1x1 ∧
    (ash_grid_1x1 ((0 : Int), (0 : Int))).ash = true ∧
    (ash_grid_1x1 ((0 : Int), (0 : Int))).wall = false ∧
    ((toggle_wall 1 ash_grid_1x1 0 0) ((0 : Int), (0 : Int))).wall = true ∧
    ((toggle_wall 1 ash_grid_1x1 0 0) ((0 : Int), (0 : Int))).ash = true :=
  ⟨reachable_iterate (Reachable.ignite 0 0 Reachable.init) 40,
    by decide, by decide, by decide, by decide⟩

/-- C5: in every reachable grid fuel is never negative, and one tick takes
every in-bounds ignited non-wall cell's fuel down by exactly one, with the
transition to ash happening exactly on the tick in which the fuel counter
reaches zero, via `extinguish` (heat reset, `ignited` cleared, `ash` set).
(The claim's unrestricted form fails for the reachable ignited wall cell,
which a tick skips; see the counterexample.) -/
theorem c5_fuel_decrement_and_nonnegative (n : Nat) (g : Grid) (h : Reachable n g) :
    (∀ p : Pos, 0 ≤ (g p).fuel_remaining) ∧
    (∀ p : Pos, p ∈ all_cell_coords n → (g p).ignited = true → (g p).wall = false →
      ((update_cells n g) p).fuel_remaining = (g p).fuel_remaining - 1 ∧
      (((update_cells n g) p).ash = true ↔ (g p).fuel_remaining = 1) ∧
      (((update_cells n g) p).ash = true →
        ((update_cells n g) p).heat = 0 ∧ ((update_cells n g) p).ignited = false)) := by
  constructor
  · intro p
    exact (cellInv_reachable h p).2.2.2.1
  · intro p hp hi hw
    have hinv := cellInv_reachable h p
    have hfuel : 1 ≤ (g p).fuel_remaining := hinv.2.1 hi
    have hash : (g p).ash = false := hinv.1 hi
    rw [update_cells_apply_eq n g p hp, if_neg (by simp [hw]),
      update_state_of_ignited _ _ hi, burn_eq]
    by_cases hf : (g p).fuel_remaining - 1 = 0
    · rw [if_pos hf]
      refine ⟨by simp; omega, by simp; omega, by simp⟩
    · rw [if_neg hf]
      refine ⟨by simp, ?_, ?_⟩
      · simp only [hash]
        constructor
        · intro hcon; exact absurd hcon (by simp)
        · intro h1; omega
      · intro hcon
        rw [hash] at hcon
        exact absurd hcon (by simp)

theorem c5_witness :
    ((update_cells 1 (ignite_cell 1 initial_grid 0 0)) ((0 : Int), (0 : Int))).fuel_remaining
      = ((ignite_cell 1 initial_grid 0 0) ((0 : Int), (0 : Int))).fuel_remaining - 1 :=
  ((c5_fuel_decrement_and_nonnegative 1 _ (Reachable.ignite 0 0 Reachable.init)).2
    ((0 : Int), (0 : Int)) (by decide) (by decide) (by decide)).1

/-- C5 is refuted as stated: the reachable ignited wall cell is skipped by
the tick, so its fuel is not decremented. -/
theorem c5_cex_ignited_wall_fuel_unchanged :
    Reachable 1 wall_ignited_grid ∧
    (wall_ignited_grid ((0 : Int), (0 : Int))).ignited = true ∧
    (wall_ignited_grid ((0 : Int), (0 : Int))).fuel_remaining = 40 ∧
    ((update_cells 1 wall_ignited_grid) ((0 : Int), (0 : Int))).fuel_remaining = 40 :=
  ⟨Reachable.ignite 0 0 (Reachable.wall 0 0 Reachable.init), by decide, by decide, by decide⟩

/-- C10: a wall cell is skipped entirely by `update_cells` — its whole cell
record is unchanged by every tick — and if its same-tick ignition flag is
set (which the manual ignite path can do to a wall), that flag persists, so
at no stage of any in-place pass is the cell counted in any neighbour's
burning count (the count requires `ignited && !ignited_this_tick`). -/
theorem c10_wall_skipped_and_never_counted (n : Nat) (g : Grid) (p : Pos)
    (hw : (g p).wall = true) :
    ((update_cells n g) p = g p) ∧
    (∀ k : Nat, ((update_cells n)^[k] g) p = g p) ∧
    ((g p).ignited_this_tick = true →
      ∀ (l : List Pos) (a b : Int),
        p ∉ (find_neighbours n a b).filter
          (fun q => ((l.foldl (update_pos n) g) q).ignited &&
            !((l.foldl (update_pos n) g) q).ignited_this_tick)) := by
  have hfix : ∀ k : Nat, ((update_cells n)^[k] g) p = g p := by
    intro k
    induction k with
    | zero => rfl
    | succ k ih =>
        rw [Function.iterate_succ_apply',
          update_cells_wall_fixed n _ p (by rw [ih]; exact hw)]
        exact ih
  refine ⟨hfix 1, hfix, ?_⟩
  intro hitt l a b hmem
  have hval : (l.foldl (update_pos n) g) p = g p := foldl_update_pos_wall_fixed n l g p hw
  have hpred := (List.mem_filter.mp hmem).2
  rw [hval, hitt] at hpred
  simp at hpred

theorem c10_witness :
    (update_cells 1 wall_ignited_grid) ((0 : Int), (0 : Int))
        = wall_ignited_grid ((0 : Int), (0 : Int)) ∧
    ((update_cells 1)^[5] wall_ignited_grid) ((0 : Int), (0 : Int))
        = wall_ignited_grid ((0 : Int), (0 : Int)) ∧
    ((0 : Int), (0 : Int)) ∉ (find_neighbours 1 0 1).filter
      (fun q => (([((0 : Int), (0 : Int))].foldl (update_pos 1) wall_ignited_grid) q).ignited &&
        !(([((0 : Int), (0 : Int))].foldl (update_pos 1) wall_ignited_grid) q).ignited_this_tick) := by
  obtain ⟨h1, h2, h3⟩ :=
    c10_wall_skipped_and_never_counted 1 wall_ignited_grid ((0 : Int), (0 : Int)) (by decide)
  exact ⟨h1, h2 5, h3 (by decide) [((0 : Int), (0 : Int))] 0 1⟩

/-- C9: `extinguish` resets heat to 0, while `ignite` and `refresh` leave
heat unchanged; in every reachable grid each ash cell has heat 0 (reset at
extinguish and never modified in the ash phase), so a cell that refreshes
from ash to dormant has heat 0 afterwards.  (The claim that ignition resets
heat fails: see the counterexample, where a cell ignites with heat 5.) -/
theorem c9_heat_on_extinguish_and_ash (n : Nat) (g : Grid) (h : Reachable n g) :
    (∀ c : Cell, c.extinguish.heat = 0 ∧ c.ignite.heat = c.heat ∧ c.refresh.heat = c.heat) ∧
    (∀ p : Pos, (g p).ash = true → (g p).heat = 0) ∧
    (∀ p : Pos, (g p).ash = true → ((update_cells n g) p).heat = 0) := by
  refine ⟨fun c => ⟨rfl, rfl, rfl⟩, fun p hp => (cellInv_reachable h p).2.2.2.2.2 hp, ?_⟩
  intro p hp
  have h0 : (g p).heat = 0 := (cellInv_reachable h p).2.2.2.2.2 hp
  have hig : (g p).ignited = false := by
    cases hv : (g p).ignited
    · rfl
    · exact absurd hp (by rw [(cellInv_reachable h p).1 hv]; simp)
  by_cases hmem : p ∈ all_cell_coords n
  · rw [update_cells_apply_eq n g p hmem]
    by_cases hw : (g p).wall = true
    · rw [if_pos hw]
      exact h0
    · rw [if_neg hw, update_state_of_ash _ _ hig hp]
      by_cases ht : ASH_TIME < (g p).time_as_ash + 1
      · rw [if_pos ht]
        simpa using h0
      · rw [if_neg ht]
        simpa using h0
  · rw [update_cells_apply_not_mem n g p hmem]
    exact h0

theorem c9_witness : (ash_grid_1x1 ((0 : Int), (0 : Int))).heat = 0 :=
  (c9_heat_on_extinguish_and_ash 1 ash_grid_1x1
    (reachable_iterate (Reachable.ignite 0 0 Reachable.init) 40)).2.1
    ((0 : Int), (0 : Int)) (by decide)

/-- C9 is refuted as stated: on a 2-by-2 grid with one burning cell, the
neighbouring cell accumulates heat and ignites during tick 5 with its heat
field at 5, not 0 — `ignite` does not reset heat. -/
theorem c9_cex_ignition_keeps_heat :
    Reachable 2 ((update_cells 2)^[5] (ignite_cell 2 initial_grid 0 0)) ∧
    (((update_cells 2)^[4] (ignite_cell 2 initial_grid 0 0)) ((0 : Int), (1 : Int))).ignited
        = false ∧
    (((update_cells 2)^[5] (ignite_cell 2 initial_grid 0 0)) ((0 : Int), (1 : Int))).ignited
        = true ∧
    (((update_cells 2)^[5] (ignite_cell 2 initial_grid 0 0)) ((0 : Int), (1 : Int))).heat = 5 :=
  ⟨reachable_iterate (Reachable.ignite 0 0 Reachable.init) 5, by decide, by decide, by decide⟩

theorem update_state_preserves_wall (c : Cell) (nb : Nat) : (c.update_state nb).wall = c.wall := by
  obtain ⟨f, ht, i, a, t, itt, w⟩ := c
  cases i <;> cases a <;> cases itt <;>
    simp [Cell.update_state, Cell.burn, Cell.extinguish, Cell.refresh, Cell.ignite] <;>
    split_ifs <;> rfl

theorem ash_cell_tick (n : Nat) (g : Grid) (p : Pos) (hp : p ∈ all_cell_coords n)
    (ha : (g p).ash = true) (hi : (g p).ignited = false) (hw : (g p).wall = false)
    (ht : (g p).time_as_ash + 1 ≤ ASH_TIME) :
    (update_cells n g) p = { g p with time_as_ash := (g p).time_as_ash + 1 } := by
  rw [update_cells_apply_eq n g p hp, if_neg (by simp [hw]),
    update_state_of_ash _ _ hi ha, if_neg (by omega)]

theorem ash_evolution (n : Nat) (p : Pos) (hp : p ∈ all_cell_coords n) :
    ∀ (k : Nat) (g : Grid), (g p).ash = true → (g p).ignited = false → (g p).wall = false →
      (g p).time_as_ash + k ≤ ASH_TIME →
      ((update_cells n)^[k] g) p = { g p with time_as_ash := (g p).time_as_ash + k } := by
  intro k
  induction k with
  | zero =>
      intro g ha hi hw ht
      simp
  | succ k ih =>
      intro g ha hi hw ht
      rw [Function.iterate_succ_apply]
      have h1 : (update_cells n g) p = { g p with time_as_ash := (g p).time_as_ash + 1 } :=
        ash_cell_tick n g p hp ha hi hw (by omega)
      rw [ih (update_cells n g) (by rw [h1]; simpa using ha) (by rw [h1]; simpa using hi)
        (by rw [h1]; simpa using hw) (by rw [h1]; simp; omega), h1]
      simp only []
      congr 1
      simp
      omega

/-- C6: in a reachable grid, a non-ash cell that turns to ash on one tick
stays ash for the next `ASH_TIME` ticks and becomes dormant again, with
`fuel_remaining` restored to `FUEL_REMAINING` and `time_as_ash` reset to 0,
exactly `ASH_TIME + 1` ticks after turning to ash, and on no earlier tick. -/
theorem c6_ash_refresh_timing (n : Nat) (g : Grid) (p : Pos) (h : Reachable n g)
    (hp : p ∈ all_cell_coords n) (h0 : (g p).ash = false)
    (h1 : ((update_cells n g) p).ash = true) :
    (∀ j : Nat, (j : Int) ≤ ASH_TIME →
      (((update_cells n)^[j] (update_cells n g)) p).ash = true) ∧
    (((update_cells n)^[ASH_TIME.toNat + 1] (update_cells n g)) p).ash = false ∧
    (((update_cells n)^[ASH_TIME.toNat + 1] (update_cells n g)) p).fuel_remaining
        = FUEL_REMAINING ∧
    (((update_cells n)^[ASH_TIME.toNat + 1] (update_cells n g)) p).time_as_ash = 0 := by
  have htime : (g p).time_as_ash = 0 := (cellInv_reachable h p).2.2.2.2.1 h0
  have hw : (g p).wall = false := by
    cases hwv : (g p).wall
    · rfl
    · rw [update_cells_wall_fixed n g p hwv] at h1
      rw [h0] at h1
      exact absurd h1 (by simp)
  have hfields : ((update_cells n g) p).ignited = false ∧ ((update_cells n g) p).wall = false ∧
      ((update_cells n g) p).time_as_ash = 0 := by
    rw [update_cells_apply_eq n g p hp, if_neg (by simp [hw])] at h1 ⊢
    by_cases hi : (g p).ignited = true
    · rw [update_state_of_ignited _ _ hi, burn_eq] at h1 ⊢
      by_cases hf : (g p).fuel_remaining - 1 = 0
      · rw [if_pos hf]
        exact ⟨by simp, by simpa using hw, by simpa using htime⟩
      · rw [if_neg hf] at h1
        simp [h0] at h1
    · exfalso
      have hi' : (g p).ignited = false := by simpa using hi
      by_cases hnb : 0 < count_neighbours_burning n (fold_before n g p) p.1 p.2
      · rw [update_state_of_dormant _ _ hi' h0 hnb] at h1
        split_ifs at h1 <;> simp [h0] at h1
      · have hnb0 : count_neighbours_burning n (fold_before n g p) p.1 p.2 = 0 := by omega
        rw [hnb0, update_state_of_isolated _ hi' h0, h0] at h1
        exact absurd h1 (by simp)
  refine ⟨?_, ?_⟩
  · intro j hj
    have := ash_evolution n p hp j (update_cells n g) h1 hfields.1 hfields.2.1
      (by rw [hfields.2.2]; omega)
    rw [this]
    simpa using h1
  · have h80 := ash_evolution n p hp ASH_TIME.toNat (update_cells n g) h1 hfields.1 hfields.2.1
      (by rw [hfields.2.2]; simp [ASH_TIME])
    rw [Function.iterate_succ_apply']
    have hig80 : (((update_cells n)^[ASH_TIME.toNat] (update_cells n g)) p).ignited = false := by
      rw [h80]; simpa using hfields.1
    have hash80 : (((update_cells n)^[ASH_TIME.toNat] (update_cells n g)) p).ash = true := by
      rw [h80]; simpa using h1
    have hwall80 : (((update_cells n)^[ASH_TIME.toNat] (update_cells n g)) p).wall = false := by
      rw [h80]; simpa using hfields.2.1
    have htime80 : (((update_cells n)^[ASH_TIME.toNat] (update_cells n g)) p).time_as_ash
        = ASH_TIME := by
      rw [h80]; simp [hfields.2.2, ASH_TIME]
    rw [update_cells_apply_eq n _ p hp, if_neg (by simp [hwall80]),
      update_state_of_ash _ _ hig80 hash80, if_pos (by rw [htime80]; omega)]
    exact ⟨rfl, rfl, rfl⟩

theorem c6_witness :
    (((update_cells 1)^[ASH_TIME.toNat + 1]
        (update_cells 1 ((update_cells 1)^[39] (ignite_cell 1 initial_grid 0 0))))
      ((0 : Int), (0 : Int))).fuel_remaining = FUEL_REMAINING ∧
    (((update_cells 1)^[ASH_TIME.toNat + 1]
        (update_cells 1 ((update_cells 1)^[39] (ignite_cell 1 initial_grid 0 0))))
      ((0 : Int), (0 : Int))).ash = false := by
  obtain ⟨hall, hfin⟩ := c6_ash_refresh_timing 1
    ((update_cells 1)^[39] (ignite_cell 1 initial_grid 0 0)) ((0 : Int), (0 : Int))
    (reachable_iterate (Reachable.ignite 0 0 Reachable.init) 39)
    (by decide) (by decide) (by decide)
  exact ⟨hfin.2.1, hfin.1⟩

/-! ### Stage lemmas for the in-place pass -/

theorem update_state_fresh_flag (c : Cell) (nb : Nat) (h : c.ignited = false) :
    (c.update_state nb).ignited = true → (c.update_state nb).ignited_this_tick = true := by
  obtain ⟨f, ht, i, a, t, itt, w⟩ := c
  cases a <;>
    simp_all [Cell.update_state, Cell.burn, Cell.extinguish, Cell.refresh, Cell.ignite] <;>
    split_ifs <;> simp_all

theorem foldl_fresh_stage (n : Nat) :
    ∀ (l : List Pos), l.Nodup → ∀ (g : Grid) (q : Pos), (g q).ignited = false →
      ((l.foldl (update_pos n) g) q).ignited = true →
      ((l.foldl (update_pos n) g) q).ignited_this_tick = true := by
  intro l
  induction l with
  | nil =>
      intro _ g q h0 h1
      exact absurd h1 (by simp [h0])
  | cons a t ih =>
      intro hnd g q h0
      simp only [List.foldl_cons]
      by_cases hqa : a = q
      · subst hqa
        have hqt : a ∉ t := (List.nodup_cons.mp hnd).1
        rw [foldl_update_pos_not_mem n t _ a hqt]
        simp only [update_pos]
        by_cases hw : (g a).wall = true
        · rw [if_pos hw]
          intro h1
          exact absurd h1 (by simp [h0])
        · rw [if_neg hw, Function.update_same]
          exact update_state_fresh_flag _ _ h0
      · refine ih (List.nodup_cons.mp hnd).2 (update_pos n g a) q ?_
        rw [update_pos_apply_ne n g a q (fun hh => hqa hh.symm)]
        exact h0

theorem foldl_value_cases (n : Nat) :
    ∀ (l : List Pos), l.Nodup → ∀ (g : Grid) (q : Pos),
      (l.foldl (update_pos n) g) q = g q ∨
      ∃ h : Grid, h q = g q ∧ (l.foldl (update_pos n) g) q = (update_pos n h q) q := by
  intro l
  induction l with
  | nil => intro _ g q; exact Or.inl rfl
  | cons a t ih =>
      intro hnd g q
      simp only [List.foldl_cons]
      by_cases hqa : a = q
      · subst hqa
        have hqt : a ∉ t := (List.nodup_cons.mp hnd).1
        rw [foldl_update_pos_not_mem n t _ a hqt]
        exact Or.inr ⟨g, rfl, rfl⟩
      · rcases ih (List.nodup_cons.mp hnd).2 (update_pos n g a) q with hcase | ⟨hgrid, hval, heq⟩
        · rw [hcase, update_pos_apply_ne n g a q (fun hh => hqa hh.symm)]
          exact Or.inl rfl
        · refine Or.inr ⟨hgrid, ?_, heq⟩
          rw [hval, update_pos_apply_ne n g a q (fun hh => hqa hh.symm)]

theorem update_pos_self_burning (n : Nat) (h : Grid) (q : Pos)
    (hi : (h q).ignited = true) (hitt : (h q).ignited_this_tick = false)
    (hf : (h q).fuel_remaining ≠ 1) :
    ((update_pos n h q) q).ignited = true ∧ ((update_pos n h q) q).ignited_this_tick = false := by
  simp only [update_pos]
  by_cases hw : (h q).wall = true
  · rw [if_pos hw]
    exact ⟨hi, hitt⟩
  · rw [if_neg hw, Function.update_same, update_state_of_ignited _ _ hi, burn_eq,
      if_neg (by omega)]
    exact ⟨by simp [hi], by simp⟩

/-- C2: during one in-place pass over grid `g`, (i) a cell that starts the
tick unignited — in particular one that ignites during this tick — is at no
point counted in any cell's burning-neighbour filter (its `ignited` flag can
only come with `ignited_this_tick`); (ii) a cell that starts the tick
ignited with the same-tick flag already cleared and with more than one unit
of fuel is counted by every cell it neighbours; and (iii) the count the tick
actually uses for cell `p` is the one taken over `fold_before n g p`, the
grid as already partially updated by the row-major pass.  (The claim's
tick-T+1 half fails: on tick T+1 the flag of a tick-T ignition is still set
when earlier row-major cells are processed, see the counterexample.) -/
theorem c2_same_tick_exclusion_and_later_counting (n : Nat) (g : Grid) :
    (∀ q : Pos, (g q).ignited = false →
      ∀ p : Pos, q ∉ (find_neighbours n p.1 p.2).filter
        (fun m => ((fold_before n g p) m).ignited &&
          !((fold_before n g p) m).ignited_this_tick)) ∧
    (∀ q p : Pos, (g q).ignited = true → (g q).ignited_this_tick = false →
      (g q).fuel_remaining ≠ 1 → q ∈ find_neighbours n p.1 p.2 →
      q ∈ (find_neighbours n p.1 p.2).filter
        (fun m => ((fold_before n g p) m).ignited &&
          !((fold_before n g p) m).ignited_this_tick)) ∧
    (∀ p : Pos, p ∈ all_cell_coords n → (update_cells n g) p =
      if (g p).wall then g p
      else (g p).update_state (count_neighbours_burning n (fold_before n g p) p.1 p.2)) := by
  have hnodup : ∀ p : Pos, ((all_cell_coords n).takeWhile fun q => decide (q ≠ p)).Nodup :=
    fun p => (List.takeWhile_sublist _).nodup (nodup_all_cell_coords n)
  refine ⟨?_, ?_, fun p hp => update_cells_apply_eq n g p hp⟩
  · intro q hq p hmem
    have hpred := (List.mem_filter.mp hmem).2
    by_cases higs : ((fold_before n g p) q).ignited = true
    · have hflag : ((fold_before n g p) q).ignited_this_tick = true :=
        foldl_fresh_stage n _ (hnodup p) g q hq higs
      rw [higs, hflag] at hpred
      simp at hpred
    · rw [Bool.not_eq_true] at higs
      rw [higs] at hpred
      simp at hpred
  · intro q p hi hitt hf hmem
    rw [List.mem_filter]
    refine ⟨hmem, ?_⟩
    rcases foldl_value_cases n _ (hnodup p) g q with hcase | ⟨hgrid, hval, heq⟩
    · have hc : (fold_before n g p) q = g q := hcase
      simp [hc, hi, hitt]
    · have hc : (fold_before n g p) q = (update_pos n hgrid q) q := heq
      have hb := update_pos_self_burning n hgrid q (by rw [hval]; exact hi)
        (by rw [hval]; exact hitt) (by rw [hval]; exact hf)
      simp [hc, hb.1, hb.2]

theorem c2_witness :
    (((1 : Int), (2 : Int)) : Pos) ∉ (find_neighbours 3 2 2).filter
      (fun m => ((fold_before 3 spread_grid_3x3 ((2 : Int), (2 : Int))) m).ignited &&
        !((fold_before 3 spread_grid_3x3 ((2 : Int), (2 : Int))) m).ignited_this_tick) ∧
    (((2 : Int), (1 : Int)) : Pos) ∈ (find_neighbours 3 1 1).filter
      (fun m => ((fold_before 3 spread_grid_3x3 ((1 : Int), (1 : Int))) m).ignited &&
        !((fold_before 3 spread_grid_3x3 ((1 : Int), (1 : Int))) m).ignited_this_tick) :=
  ⟨(c2_same_tick_exclusion_and_later_counting 3 spread_grid_3x3).1
      ((1 : Int), (2 : Int)) (by decide) ((2 : Int), (2 : Int)),
    (c2_same_tick_exclusion_and_later_counting 3 spread_grid_3x3).2.1
      ((2 : Int), (1 : Int)) ((1 : Int), (1 : Int)) (by decide) (by decide) (by decide) (by decide)⟩

/-- C2 is refuted as stated: in the 3-by-3 scenario, cell (2,2) ignites
during tick 5, and during tick 6 ( = T+1) the dormant neighbour (1,2) —
processed before (2,2) in row-major order — does not count it, because the
same-tick flag from tick 5 is only cleared when (2,2) itself burns later in
tick 6. -/
theorem c2_cex_tick_after_ignition_not_counted :
    Reachable 3 spread_grid_3x3 ∧
    (((update_cells 3)^[4] (ignite_cell 3 initial_grid 2 1)) ((2 : Int), (2 : Int))).ignited
        = false ∧
    (spread_grid_3x3 ((2 : Int), (2 : Int))).ignited = true ∧
    (spread_grid_3x3 ((1 : Int), (2 : Int))).ignited = false ∧
    (spread_grid_3x3 ((1 : Int), (2 : Int))).ash = false ∧
    (spread_grid_3x3 ((1 : Int), (2 : Int))).wall = false ∧
    (((2 : Int), (2 : Int)) : Pos) ∈ find_neighbours 3 1 2 ∧
    (((2 : Int), (2 : Int)) : Pos) ∉ (find_neighbours 3 1 2).filter
      (fun m => ((fold_before 3 spread_grid_3x3 ((1 : Int), (2 : Int))) m).ignited &&
        !((fold_before 3 spread_grid_3x3 ((1 : Int), (2 : Int))) m).ignited_this_tick) :=
  ⟨reachable_iterate (Reachable.ignite 2 1 Reachable.init) 5, by decide, by decide, by decide,
    by decide, by decide, by decide, by decide⟩

/-! ### Comparison of the in-place tick with the double-buffered tick -/

theorem count_congr (n : Nat) (g h : Grid)
    (hagree : ∀ q : Pos, ((h q).ignited && !(h q).ignited_this_tick)
      = ((g q).ignited && !(g q).ignited_this_tick)) (row col : Int) :
    count_neighbours_burning n h row col = count_neighbours_burning n g row col := by
  unfold count_neighbours_burning
  congr 1
  exact List.filter_congr (fun m _ => hagree m)

theorem counted_update_state (c : Cell) (nb : Nat) (hitt : c.ignited_this_tick = false)
    (hful : c.ignited = true → c.fuel_remaining ≠ 1) :
    ((c.update_state nb).ignited && !(c.update_state nb).ignited_this_tick)
      = (c.ignited && !c.ignited_this_tick) := by
  obtain ⟨f, ht, i, a, t, itt, w⟩ := c
  cases i <;> cases a <;>
    simp_all [Cell.update_state, Cell.burn, Cell.extinguish, Cell.refresh, Cell.ignite] <;>
    split_ifs <;> simp_all <;> omega

theorem foldl_eq_double_buffer (n : Nat) (g : Grid)
    (H1 : ∀ p : Pos, (g p).ignited_this_tick = false)
    (H2 : ∀ p : Pos, (g p).ignited = true → (g p).fuel_remaining ≠ 1) :
    ∀ (l : List Pos) (h : Grid), l.Nodup →
      (∀ q : Pos, ((h q).ignited && !(h q).ignited_this_tick)
        = ((g q).ignited && !(g q).ignited_this_tick)) →
      (∀ p, p ∈ l → h p = g p) →
      (∀ p : Pos, p ∉ l → h p = double_buffer_tick n g p) →
      (∀ p, p ∈ l → p ∈ all_cell_coords n) →
      l.foldl (update_pos n) h = double_buffer_tick n g := by
  intro l
  induction l with
  | nil =>
      intro h _ _ _ hout _
      funext p
      exact hout p (List.not_mem_nil p)
  | cons a t ih =>
      intro h hnd hagree hin hout hsub
      simp only [List.foldl_cons]
      have hna : a ∉ t := (List.nodup_cons.mp hnd).1
      have hag : h a = g a := hin a (List.mem_cons_self a t)
      have hcnt : count_neighbours_burning n h a.1 a.2 = count_neighbours_burning n g a.1 a.2 :=
        count_congr n g h hagree a.1 a.2
      have hdb_a : (update_pos n h a) a = double_buffer_tick n g a := by
      -- value of the freshly processed cell agrees with the double-buffered one
        simp only [update_pos, double_buffer_tick]
        rw [if_pos (hsub a (List.mem_cons_self a t)), hag]
        by_cases hw : (g a).wall = true
        · rw [if_pos hw, if_pos hw, hag]
        · rw [if_neg hw, if_neg hw, Function.update_same, hcnt]
      refine ih (update_pos n h a) (List.nodup_cons.mp hnd).2 ?_ ?_ ?_
        (fun p hp => hsub p (List.mem_cons_of_mem a hp))
      · intro q
        by_cases hq : q = a
        · subst hq
          simp only [update_pos]
          by_cases hw : (h q).wall = true
          · rw [if_pos hw]
            exact hagree q
          · rw [if_neg hw, Function.update_same, hag]
            exact counted_update_state (g q) _ (H1 q) (H2 q)
        · rw [update_pos_apply_ne n h a q hq]
          exact hagree q
      · intro p hp
        rw [update_pos_apply_ne n h a p (fun hh => hna (hh ▸ hp))]
        exact hin p (List.mem_cons_of_mem a hp)
      · intro p hp
        by_cases hpa : p = a
        · subst hpa
          exact hdb_a
        · rw [update_pos_apply_ne n h a p hpa]
          exact hout p (by simp [hpa, hp])

/-- C3: the in-place row-major tick coincides with the fully double-buffered
tick (every cell's `neighbours_burning` computed from the complete pre-tick
snapshot) on every grid in which no cell has `ignited_this_tick` set and no
ignited cell is on its last unit of fuel.  (The unconditional claim fails:
a grid with a freshly ignited cell makes the two ticks differ, see the
counterexample.) -/
theorem c3_inplace_eq_double_buffer (n : Nat) (g : Grid)
    (H1 : ∀ p : Pos, (g p).ignited_this_tick = false)
    (H2 : ∀ p : Pos, (g p).ignited = true → (g p).fuel_remaining ≠ 1) :
    update_cells n g = double_buffer_tick n g :=
  foldl_eq_double_buffer n g H1 H2 (all_cell_coords n) g (nodup_all_cell_coords n)
    (fun _ => rfl) (fun _ _ => rfl)
    (fun p hp => by simp only [double_buffer_tick]; rw [if_neg hp])
    (fun _ hp => hp)

theorem c3_witness :
    update_cells 2 (Function.update initial_grid ((0 : Int), (0 : Int))
        { initial_cell with ignited := true })
      = double_buffer_tick 2 (Function.update initial_grid ((0 : Int), (0 : Int))
        { initial_cell with ignited := true }) := by
  apply c3_inplace_eq_double_buffer
  · intro p
    by_cases hp : p = ((0 : Int), (0 : Int))
    · subst hp
      rw [Function.update_same]
      rfl
    · rw [Function.update_noteq hp]
      rfl
  · intro p hp
    by_cases hq : p = ((0 : Int), (0 : Int))
    · subst hq
      rw [Function.update_same]
      simp [initial_cell, FUEL_REMAINING]
    · rw [Function.update_noteq hq]
      simp [initial_grid, initial_cell, FUEL_REMAINING]

/-- C3 is refuted as stated: on the reachable grid in which cell (0,0) was
just ignited manually (same-tick flag set) and cell (0,1) has heat 3, one
in-place tick ignites (0,1) — (0,0) is processed first, clearing its flag,
so (0,1) counts two burning neighbours — while the double-buffered tick
leaves (0,1) dormant at heat 4. -/
theorem c3_cex_inplace_ne_double_buffer :
    Reachable 2 mixed_grid_2x2 ∧
    ((update_cells 2 mixed_grid_2x2) ((0 : Int), (1 : Int))).ignited = true ∧
    ((double_buffer_tick 2 mixed_grid_2x2) ((0 : Int), (1 : Int))).ignited = false ∧
    update_cells 2 mixed_grid_2x2 ≠ double_buffer_tick 2 mixed_grid_2x2 := by
  refine ⟨Reachable.ignite 0 0 (reachable_iterate (Reachable.ignite 1 1 Reachable.init) 4),
    by decide, by decide, ?_⟩
  intro hcon
  have h1 : ((update_cells 2 mixed_grid_2x2) ((0 : Int), (1 : Int))).ignited = true := by decide
  have h2 : ((double_buffer_tick 2 mixed_grid_2x2) ((0 : Int), (1 : Int))).ignited = false := by
    decide
  rw [hcon, h2] at h1
  exact absurd h1 (by simp)

/-! ### Neighbour topology and the spread bound -/

theorem mem_find_neighbours (n : Nat) (row col : Int) (q : Pos) :
    q ∈ find_neighbours n row col ↔
      ((0 ≤ q.1 ∧ q.1 < (n : Int) ∧ 0 ≤ q.2 ∧ q.2 < (n : Int)) ∧
        (q.1 - row).natAbs + (q.2 - col).natAbs = 1) := by
  obtain ⟨q1, q2⟩ := q
  simp only [find_neighbours, List.mem_flatMap, List.mem_filterMap]
  constructor
  · rintro ⟨dr, hdr, dc, hdc, heq⟩
    simp only [List.mem_cons, List.mem_singleton, List.not_mem_nil, or_false] at hdr hdc
    rcases hdr with rfl | rfl | rfl <;> rcases hdc with rfl | rfl | rfl
    · rw [if_neg (by norm_num), if_pos (by norm_num)] at heq
      exact absurd heq (by simp)
    · rw [if_neg (by norm_num), if_neg (by norm_num)] at heq
      split_ifs at heq with hb
      simp only [Option.some.injEq, Prod.mk.injEq] at heq
      refine ⟨⟨?_, ?_, ?_, ?_⟩, ?_⟩ <;> omega
    · rw [if_neg (by norm_num), if_pos (by norm_num)] at heq
      exact absurd heq (by simp)
    · rw [if_neg (by norm_num), if_neg (by norm_num)] at heq
      split_ifs at heq with hb
      simp only [Option.some.injEq, Prod.mk.injEq] at heq
      refine ⟨⟨?_, ?_, ?_, ?_⟩, ?_⟩ <;> omega
    · rw [if_pos (by norm_num)] at heq
      exact absurd heq (by simp)
    · rw [if_neg (by norm_num), if_neg (by norm_num)] at heq
      split_ifs at heq with hb
      simp only [Option.some.injEq, Prod.mk.injEq] at heq
      refine ⟨⟨?_, ?_, ?_, ?_⟩, ?_⟩ <;> omega
    · rw [if_neg (by norm_num), if_pos (by norm_num)] at heq
      exact absurd heq (by simp)
    · rw [if_neg (by norm_num), if_neg (by norm_num)] at heq
      split_ifs at heq with hb
      simp only [Option.some.injEq, Prod.mk.injEq] at heq
      refine ⟨⟨?_, ?_, ?_, ?_⟩, ?_⟩ <;> omega
    · rw [if_neg (by norm_num), if_pos (by norm_num)] at heq
      exact absurd heq (by simp)
  · rintro ⟨⟨hb1, hb2, hb3, hb4⟩, hd⟩
    have hcase : (q1 = row + 1 ∧ q2 = col) ∨ (q1 = row + -1 ∧ q2 = col) ∨
        (q1 = row ∧ q2 = col + 1) ∨ (q1 = row ∧ q2 = col + -1) := by omega
    rcases hcase with ⟨he1, he2⟩ | ⟨he1, he2⟩ | ⟨he1, he2⟩ | ⟨he1, he2⟩
    · refine ⟨1, by norm_num, 0, by norm_num, ?_⟩
      rw [if_neg (by norm_num), if_neg (by norm_num), if_pos (by refine ⟨?_, ?_, ?_, ?_⟩ <;> omega)]
      simp only [Option.some.injEq, Prod.mk.injEq]
      omega
    · refine ⟨-1, by norm_num, 0, by norm_num, ?_⟩
      rw [if_neg (by norm_num), if_neg (by norm_num), if_pos (by refine ⟨?_, ?_, ?_, ?_⟩ <;> omega)]
      simp only [Option.some.injEq, Prod.mk.injEq]
      omega
    · refine ⟨0, by norm_num, 1, by norm_num, ?_⟩
      rw [if_neg (by norm_num), if_neg (by norm_num), if_pos (by refine ⟨?_, ?_, ?_, ?_⟩ <;> omega)]
      simp only [Option.some.injEq, Prod.mk.injEq]
      omega
    · refine ⟨0, by norm_num, -1, by norm_num, ?_⟩
      rw [if_neg (by norm_num), if_neg (by norm_num), if_pos (by refine ⟨?_, ?_, ?_, ?_⟩ <;> omega)]
      simp only [Option.some.injEq, Prod.mk.injEq]
      omega

theorem counted_neighbour_exists (n : Nat) (h : Grid) (a : Pos)
    (hnb : 0 < count_neighbours_burning n h a.1 a.2) :
    ∃ m : Pos, m ∈ find_neighbours n a.1 a.2 ∧
      (h m).ignited = true ∧ (h m).ignited_this_tick = false := by
  unfold count_neighbours_burning at hnb
  rw [List.length_pos] at hnb
  obtain ⟨m, hm⟩ := List.exists_mem_of_ne_nil _ hnb
  have := List.mem_filter.mp hm
  refine ⟨m, this.1, ?_, ?_⟩
  · exact (Bool.and_eq_true_iff.mp this.2).1
  · have := (Bool.and_eq_true_iff.mp this.2).2
    simpa using this

theorem mdist_le_of_neighbour (o a m : Pos) (hadj : (m.1 - a.1).natAbs + (m.2 - a.2).natAbs = 1)
    (k : Nat) (hm : mdist o m ≤ k) : mdist o a ≤ k + 1 := by
  simp only [mdist] at hm ⊢
  omega

theorem spread_fold (n : Nat) (o : Pos) (k : Nat) (g : Grid)
    (hpre : ∀ p : Pos, CellActive (g p) → mdist o p ≤ k) :
    ∀ (l : List Pos) (h : Grid), l.Nodup →
      (∀ p, p ∈ l → h p = g p) →
      (∀ p : Pos, CellActive (h p) → mdist o p ≤ k + 1) →
      (∀ p : Pos, (h p).ignited = true → (h p).ignited_this_tick = false → mdist o p ≤ k) →
      (∀ p : Pos, CellActive ((l.foldl (update_pos n) h) p) → mdist o p ≤ k + 1) := by
  intro l
  induction l with
  | nil => intro h _ _ hA _ p; exact hA p
  | cons a t ih =>
      intro h hnd hval hA hB
      have hna : a ∉ t := (List.nodup_cons.mp hnd).1
      have hag : h a = g a := hval a (List.mem_cons_self a t)
      simp only [List.foldl_cons]
      refine ih (update_pos n h a) (List.nodup_cons.mp hnd).2 ?_ ?_ ?_
      · intro p hp
        rw [update_pos_apply_ne n h a p (fun hh => hna (hh ▸ hp))]
        exact hval p (List.mem_cons_of_mem a hp)
      · intro p hact
        by_cases hpa : p = a
        · subst hpa
          revert hact
          simp only [update_pos]
          by_cases hw : (h p).wall = true
          · rw [if_pos hw]
            exact hA p
          · rw [if_neg hw, Function.update_same, hag]
            intro hact
            by_cases hi : (g p).ignited = true
            · exact le_trans (hpre p (Or.inr (Or.inl hi))) (Nat.le_succ k)
            · have hi' : (g p).ignited = false := by simpa using hi
              by_cases ha : (g p).ash = true
              · exact le_trans (hpre p (Or.inr (Or.inr ha))) (Nat.le_succ k)
              · have ha' : (g p).ash = false := by simpa using ha
                by_cases hnb : 0 < count_neighbours_burning n h p.1 p.2
                · obtain ⟨m, hmem, hmi, hmitt⟩ := counted_neighbour_exists n h p hnb
                  have hmd : mdist o m ≤ k := hB m hmi hmitt
                  have hadj := ((mem_find_neighbours n p.1 p.2 m).mp hmem).2
                  exact mdist_le_of_neighbour o p m hadj k hmd
                · have h0 : count_neighbours_burning n h p.1 p.2 = 0 := by omega
                  rw [h0, update_state_of_isolated _ hi' ha'] at hact
                  exact le_trans (hpre p hact) (Nat.le_succ k)
        · rw [update_pos_apply_ne n h a p hpa] at hact
          exact hA p hact
      · intro p h1 h2
        by_cases hpa : p = a
        · subst hpa
          revert h1 h2
          simp only [update_pos]
          by_cases hw : (h p).wall = true
          · rw [if_pos hw]
            exact hB p
          · rw [if_neg hw, Function.update_same, hag]
            intro h1 h2
            by_cases hi : (g p).ignited = true
            · exact hpre p (Or.inr (Or.inl hi))
            · have hi' : (g p).ignited = false := by simpa using hi
              have := update_state_fresh_flag (g p) _ hi' h1
              rw [this] at h2
              exact absurd h2 (by simp)
        · rw [update_pos_apply_ne n h a p hpa] at h1 h2
          exact hB p h1 h2

theorem spread_tick (n : Nat) (o : Pos) (k : Nat) (g : Grid)
    (hpre : ∀ p : Pos, CellActive (g p) → mdist o p ≤ k) :
    ∀ p : Pos, CellActive ((update_cells n g) p) → mdist o p ≤ k + 1 :=
  spread_fold n o k g hpre (all_cell_coords n) g (nodup_all_cell_coords n)
    (fun _ _ => rfl)
    (fun p hact => le_trans (hpre p hact) (Nat.le_succ k))
    (fun p hi _ => hpre p (Or.inr (Or.inl hi)))

theorem spread_iterate (n : Nat) (o : Pos) (g : Grid)
    (h0 : ∀ p : Pos, CellActive (g p) → mdist o p ≤ 0) (K : Nat) :
    ∀ p : Pos, CellActive (((update_cells n)^[K] g) p) → mdist o p ≤ K := by
  induction K with
  | zero => exact h0
  | succ K ih =>
      rw [Function.iterate_succ_apply']
      exact spread_tick n o K _ ih

theorem initial_ignite_active (n : Nat) (r c : Int) :
    ∀ p : Pos, CellActive ((ignite_cell n initial_grid r c) p) → mdist (r, c) p ≤ 0 := by
  intro p hact
  revert hact
  simp only [ignite_cell]
  split_ifs with hb hg
  · by_cases hp : p = (r, c)
    · subst hp
      intro _
      simp [mdist]
    · rw [Function.update_noteq hp]
      intro hact
      rcases hact with h | h | h <;> exact absurd h (by simp [initial_grid, initial_cell])
  · intro hact
    rcases hact with h | h | h <;> exact absurd h (by simp [initial_grid, initial_cell])
  · intro hact
    rcases hact with h | h | h <;> exact absurd h (by simp [initial_grid, initial_cell])

/-- C4: starting from the all-dormant grid with one cell ignited by the
pointer operation and no walls, after any number K of ticks every ignited
or ash cell lies within Manhattan distance K of the origin; and the
precomputed neighbour list of any position contains exactly the in-bounds
orthogonal neighbours — never a diagonal such as (row+1, col+1), and
nothing out of bounds (no wraparound). -/
theorem c4_manhattan_bound_and_orthogonal_neighbours (n : Nat) (r c : Int) (K : Nat) :
    (∀ p : Pos,
      ((((update_cells n)^[K]) (ignite_cell n initial_grid r c)) p).ignited = true ∨
        ((((update_cells n)^[K]) (ignite_cell n initial_grid r c)) p).ash = true →
      mdist (r, c) p ≤ K) ∧
    (∀ (a b : Int) (q : Pos), q ∈ find_neighbours n a b ↔
      ((0 ≤ q.1 ∧ q.1 < (n : Int) ∧ 0 ≤ q.2 ∧ q.2 < (n : Int)) ∧
        (q.1 - a).natAbs + (q.2 - b).natAbs = 1)) ∧
    (∀ a b : Int, (((a + 1 : Int), (b + 1 : Int)) : Pos) ∉ find_neighbours n a b) := by
  refine ⟨?_, fun a b q => mem_find_neighbours n a b q, ?_⟩
  · intro p hp
    refine spread_iterate n (r, c) (ignite_cell n initial_grid r c)
      (initial_ignite_active n r c) K p ?_
    rcases hp with h | h
    · exact Or.inr (Or.inl h)
    · exact Or.inr (Or.inr h)
  · intro a b hmem
    have := ((mem_find_neighbours n a b _).mp hmem).2
    simp only [] at this
    omega

theorem c4_witness : mdist ((2 : Int), (1 : Int)) ((2 : Int), (2 : Int)) ≤ 5 :=
  (c4_manhattan_bound_and_orthogonal_neighbours 3 2 1 5).1 ((2 : Int), (2 : Int))
    (Or.inl (by decide))
